import Mathlib

/-!
The UART transport, the association handshake and the work loop of imx_uart.

A shallow embedding of `src/imx_uart.c`.

* The operating system and the SDP command layer are external.  Every call the
  program makes to them is recorded in a log, and the value each call returns
  is supplied by the environment: a script of `read` answers, the result of
  `write`, `open` and `tcsetattr`, and the results of `DoIRomDownload` and
  `do_status` by call number.
* `read` and `write` hand back `-1` or a byte count; on Linux a count never
  exceeds `0x7ffff000`, so storing the `ssize_t` in an `int` keeps its value
  and the store is modelled as the identity.  The arithmetic the program itself
  does on `int` and `unsigned` values is modelled with explicit wrap-around.
* Memory is a map from addresses to bytes, a pointer is an address.
-/

namespace ImxUart

/-! ## Machine integers -/

def INT_MAX : Int := 2147483647

/-- Value of an `int` expression after 32-bit two's complement wrap-around. -/
def wrapInt (x : Int) : Int := (x + 2147483648) % 4294967296 - 2147483648

/-- Conversion of an integer value to `unsigned int`. -/
def toUnsigned (x : Int) : Nat := (x % 4294967296).toNat

/-- Conversion of an integer value to `size_t` (64 bit). -/
def toSizeT (x : Int) : Nat := (x % 18446744073709551616).toNat

/-! ## Memory -/

abbrev Mem := Nat → Nat

/-- Memory after `data` has been stored at address `p`. -/
def store (m : Mem) (p : Nat) (data : List Nat) : Mem :=
  fun a => if p ≤ a ∧ a < p + data.length then data.getD (a - p) 0 else m a

/-- The `n` bytes found at address `p`. -/
def load (m : Mem) (p n : Nat) : List Nat := (List.range n).map (fun i => m (p + i))

/-! ## System calls -/

/-- Answer of the environment to one `read` call: the value the call returns
and the bytes it stored at the destination. -/
structure ReadCall where
  ret : Int
  data : List Nat
deriving DecidableEq, Repr

/-- One call made to the operating system. -/
inductive Sys
  | opened (ret : Int)
  | tcsetattr (fd : Int) (crtscts : Bool) (ret : Int)
  | tcflush (fd : Int)
  | close (fd : Int)
  | write (fd : Int) (data : List Nat)
  | read (fd : Int) (p : Nat) (count : Nat) (rc : ReadCall)
deriving DecidableEq, Repr

/-- A `read` call answered as read(2) answers: a negative value, or a count
between 0 and the requested count together with that many bytes.  Calls other
than `read` are not constrained. -/
def Sys.readOK : Sys → Prop
  | .read _ _ count rc =>
      rc.ret < 0 ∨ (0 ≤ rc.ret ∧ rc.ret ≤ (count : Int) ∧ (rc.data.length : Int) = rc.ret)
  | _ => True

instance : DecidablePred Sys.readOK := fun e => by
  cases e <;> unfold Sys.readOK <;> infer_instance

def Sys.isRead : Sys → Bool
  | .read _ _ _ _ => true
  | _ => false

def Sys.isWrite : Sys → Bool
  | .write _ _ => true
  | _ => false

/-- Value returned by a logged `read` call (0 for other calls). -/
def Sys.ret : Sys → Int
  | .read _ _ _ rc => rc.ret
  | _ => 0

/-- Bytes stored by a logged `read` call. -/
def Sys.data : Sys → List Nat
  | .read _ _ _ rc => rc.data
  | _ => []

/-- Sum of the values returned by the logged calls. -/
def sumRets : List Sys → Int
  | [] => 0
  | e :: es => e.ret + sumRets es

/-- Bytes delivered by the logged calls, in call order. -/
def delivered : List Sys → List Nat
  | [] => []
  | e :: es => e.data ++ delivered es

/-- Shape of a read loop that asks for `N` bytes in all and was entered with
running total `lt` and destination `p`, `n` answers being left in the script:
still waiting (`ret = none`), left with the total reached, or left by a
failing read. -/
def LoopSpec (N : Nat) (lt : Int) (p : Nat) (n : Nat)
    (ret : Option Int) (last_trans : Int) (mem : Mem) (log : List Sys) : Prop :=
  match ret with
  | none => log.length = n ∧ (∀ e ∈ log, 0 ≤ e.ret) ∧ lt + sumRets log < N
  | some v =>
      (v = 0 ∧ last_trans = N ∧ (∀ e ∈ log, 0 ≤ e.ret) ∧ lt + sumRets log = N ∧
        ((delivered log).length : Int) = N - lt ∧
        ∀ i, i < (delivered log).length → mem (p + i) = (delivered log).getD i 0)
      ∨ (v < 0 ∧ ∃ pre last, log = pre ++ [last] ∧ last.ret = v ∧
          (∀ e ∈ pre, 0 ≤ e.ret) ∧ last_trans = lt + sumRets pre ∧ lt + sumRets pre < N)

/-! ## transfer_uart -/

/-- State in which `transfer_uart` is observed: `ret` is the value returned,
`none` while the call is still inside its read loop waiting for an answer the
script does not hold. -/
structure Transfer where
  ret : Option Int
  last_trans : Int
  mem : Mem
  log : List Sys

/-- The loop `while (*last_trans < expected)` of `transfer_uart`; each turn
takes the next answer of the script. -/
def read_loop (fd : Int) (expected : Nat) :
    List ReadCall → Int → Nat → Mem → List Sys → Transfer
  | [], last_trans, _, mem, log =>
      if toUnsigned last_trans < expected then ⟨none, last_trans, mem, log⟩
      else ⟨some 0, last_trans, mem, log⟩
  | rc :: rest, last_trans, p, mem, log =>
      if toUnsigned last_trans < expected then
        -- ret = read(fd, p, expected - *last_trans);
        let ret := rc.ret
        let mem1 := store mem p rc.data
        let log1 := log ++ [Sys.read fd p (toUnsigned ((expected : Int) - last_trans)) rc]
        if ret < 0 then ⟨some ret, last_trans, mem1, log1⟩
        else
          -- *last_trans += ret; p += ret;
          read_loop fd expected rest (wrapInt (last_trans + ret)) (p + ret.toNat) mem1 log1
      else ⟨some 0, last_trans, mem, log⟩

/-- `transfer_uart(dev, report, p, size, expected, last_trans)` with
`fd = *(int *)dev->priv`; `wret` is the value `write` returns and `script` the
answers of the `read` calls. -/
def transfer_uart (fd : Int) (report : Int) (p : Nat) (size : Nat) (expected : Nat)
    (wret : Int) (script : List ReadCall) (mem : Mem) : Transfer :=
  if report < 3 then
    -- *last_trans = write(fd, p, size);
    ⟨some 0, wret, mem, [Sys.write fd (load mem p size)]⟩
  else
    read_loop fd expected script 0 p mem []

/-! ## connect_uart -/

/-- The array `magic` of `connect_uart`. -/
def magic : List Nat := [0x23, 0x45, 0x45, 0x23]

/-- How the loop `while (count < 4)` of `connect_uart` is left: `blocked` while
it still waits for an answer the script does not hold, `failed err` through
`return err` after a failing `read`, `done` through its condition. -/
inductive Wait
  | blocked
  | failed (err : Int)
  | done
deriving DecidableEq, Repr

structure Assoc where
  exit : Wait
  response : Mem
  log : List Sys

/-- The loop `while (count < 4)` of `connect_uart`; `buf` is the offset of the
destination inside `magic_response`. -/
def magic_loop (fd : Int) : List ReadCall → Int → Nat → Mem → List Sys → Assoc
  | [], count, _, response, log =>
      if count < 4 then ⟨Wait.blocked, response, log⟩ else ⟨Wait.done, response, log⟩
  | rc :: rest, count, buf, response, log =>
      if count < 4 then
        -- err = read(*uart_fd, buf, 4 - count);
        let err := rc.ret
        let response1 := store response buf rc.data
        let log1 := log ++ [Sys.read fd buf (toSizeT (wrapInt (4 - count))) rc]
        if err < 0 then ⟨Wait.failed err, response1, log1⟩
        else
          -- count += err; buf += err;
          magic_loop fd rest (wrapInt (count + err)) (buf + err.toNat) response1 log1
      else ⟨Wait.done, response, log⟩

/-- The way the handshake loop is left, read off the value a read loop for 4
bytes would return. -/
def toWait : Option Int → Wait
  | none => Wait.blocked
  | some v => if v < 0 then Wait.failed v else Wait.done

/-- State in which `connect_uart` is observed: `ret` is the value returned
(`none` while it is still inside the read loop), `fd_open` tells whether the
descriptor obtained from `open` is open. -/
structure Connect where
  ret : Option Int
  uart_fd : Int
  fd_open : Bool
  response : Mem
  log : List Sys

/-- `connect_uart(uart_fd, tty, usectsrts)`; `open_ret` and `tcsetattr_ret`
are the values `open` and `tcsetattr` return, `script` the answers of the
`read` calls. -/
def connect_uart (usectsrts : Int) (open_ret tcsetattr_ret : Int)
    (script : List ReadCall) : Connect :=
  -- memset(&magic_response, 0, sizeof(magic_response));
  let response0 : Mem := fun _ => 0
  -- *uart_fd = open(tty, flags);
  let fd := open_ret
  let log0 := [Sys.opened fd]
  if fd < 0 then ⟨some fd, fd, false, response0, log0⟩
  else
    -- err = tcsetattr(*uart_fd, TCSAFLUSH, &key);
    let err := tcsetattr_ret
    let log1 := log0 ++ [Sys.tcsetattr fd (usectsrts != 0) err]
    if err < 0 then
      -- close(*uart_fd); return err;
      ⟨some err, fd, false, response0, log1 ++ [Sys.close fd]⟩
    else
      let log2 := log1 ++ [Sys.tcflush fd, Sys.write fd magic, Sys.tcflush fd]
      let a := magic_loop fd script 0 0 response0 log2
      match a.exit with
      | Wait.blocked => ⟨none, fd, true, a.response, a.log⟩
      | Wait.failed e => ⟨some e, fd, true, a.response, a.log⟩
      | Wait.done =>
          if (List.range 4).any (fun i => magic.getD i 0 != a.response i) then
            ⟨some (-1), fd, true, a.response, a.log⟩
          else ⟨some 0, fd, true, a.response, a.log⟩

/-! ## The work loop of main -/

/-- The fields of `struct sdp_work` the loop reads: `filename`, whether `mem`
is non-NULL, `plug` and `jump_mode`.  `next` is the position in the chain. -/
structure sdp_work where
  filename : List Nat
  mem : Bool
  plug : Int
  jump_mode : Int
deriving DecidableEq, Repr

/-- What the loop does, in order.  `pass i plug` marks the start of one turn of
the loop body on item `i`, with the value `curr->plug` has then; the other
events are the calls to the command layer, with the value returned. -/
inductive Ev
  | pass (i : Nat) (plug : Int)
  | mem_work (i : Nat)
  | download (i : Nat) (r : Int)
  | status (r : Int)
deriving DecidableEq, Repr

/-- The command layer: the value returned by the k-th call of `DoIRomDownload`
and of `do_status`.  Neither modifies the chain. -/
structure Cmd where
  download : Nat → Int
  status : Nat → Int

/-- State of the loop: the chain, `curr` as a position in it (NULL when past
the end), `err`, the number of `DoIRomDownload` and `do_status` calls made, and
the events so far. -/
structure Loop where
  chain : List sdp_work
  curr : Nat
  err : Int
  ndl : Nat
  nst : Nat
  log : List Ev
deriving DecidableEq, Repr

/-- The loop `while (curr)` of `main`, at most `fuel` turns; `none` when the
loop has not been left after `fuel` turns. -/
def work_loop (cmd : Cmd) : Nat → Loop → Option Loop
  | 0, _ => none
  | fuel + 1, s =>
    match s.chain[s.curr]? with
    | none => some s
    | some it =>
      let s0 := { s with log := s.log ++ [Ev.pass s.curr it.plug] }
      -- if (curr->mem) perform_mem_work(p_id, curr->mem);
      let s1 := if it.mem then { s0 with log := s0.log ++ [Ev.mem_work s.curr] } else s0
      -- if (curr->filename[0]) err = DoIRomDownload(p_id, curr, verify);
      let s2 :=
        if it.filename.headD 0 ≠ 0 then
          { s1 with err := cmd.download s1.ndl, ndl := s1.ndl + 1,
                    log := s1.log ++ [Ev.download s.curr (cmd.download s1.ndl)] }
        else s1
      if s2.err ≠ 0 then
        -- err = do_status(p_id); break;
        some { s2 with err := cmd.status s2.nst, nst := s2.nst + 1,
                       log := s2.log ++ [Ev.status (cmd.status s2.nst)] }
      else if s.chain[s.curr + 1]? = none ∧ it.plug = 0 then
        -- if (!curr->next && !curr->plug) break;
        some s2
      else
        -- err = do_status(p_id);
        let s3 := { s2 with err := cmd.status s2.nst, nst := s2.nst + 1,
                            log := s2.log ++ [Ev.status (cmd.status s2.nst)] }
        if s3.err ≠ 0 then
          -- goto out;
          some s3
        else if it.plug ≠ 0 then
          -- curr->plug = 0; continue;
          work_loop cmd fuel { s3 with chain := s3.chain.set s.curr { it with plug := 0 } }
        else
          -- curr = curr->next;
          work_loop cmd fuel { s3 with curr := s.curr + 1 }

/-- Events of one turn of the loop body on item `it` at position `i`, up to the
download: the start of the turn, the memory write when `mem` is set, and the
download, with its result `r`, when the file name is not empty. -/
def turnEvents (i : Nat) (it : sdp_work) (r : Int) : List Ev :=
  [Ev.pass i it.plug] ++ (if it.mem then [Ev.mem_work i] else [])
    ++ (if it.filename.headD 0 ≠ 0 then [Ev.download i r] else [])

/-- A download or a status query that returned an error. -/
def Ev.failed : Ev → Bool
  | .download _ r => r != 0
  | .status r => r != 0
  | _ => false

/-- A memory write or a download. -/
def Ev.isWork : Ev → Bool
  | .mem_work _ => true
  | .download _ _ => true
  | _ => false

def Ev.isStatus : Ev → Bool
  | .status _ => true
  | _ => false

/-- No memory write and no download comes after a failed event. -/
def stopsOnError : List Ev → Bool
  | [] => true
  | e :: es => (!e.failed || es.all (fun x => !x.isWork)) && stopsOnError es

/-- Bound on the turns the loop takes over the items `chain`: two for an item
whose plug flag is set, one for any other. -/
def turns : List sdp_work → Nat
  | [] => 0
  | it :: rest => (if it.plug ≠ 0 then 2 else 1) + turns rest

/-! ## parse_opts and main -/

/-- The `getopt_long` loop of `parse_opts` over the option characters
`getopt_long` hands back: the value of `err` (-1 through `return -1` at `h` or
`?`, 0 when the options are used up) and the values `*verify` and `*usectsrts`
hold then. -/
def parse_opts_loop : List Char → Int → Int → Int × Int × Int
  | [], verify, usectsrts => (0, verify, usectsrts)
  | c :: cs, verify, usectsrts =>
      if c = 'h' ∨ c = '?' then (-1, verify, usectsrts)
      else if c = 'n' then parse_opts_loop cs verify 0
      else if c = 'v' then parse_opts_loop cs 1 usectsrts
      else parse_opts_loop cs verify usectsrts

structure Opts where
  err : Int
  ttyfile : Option String
  conffile : Option String
  verify : Int
  usectsrts : Int
  cmd_head : List sdp_work
deriving DecidableEq, Repr

/-- `parse_opts`: `opts` are the option characters `getopt_long` returns
before -1, `args` the arguments from `argv[optind]` on, `jobs` the chain
`parse_cmd_args` builds; `verify`, `usectsrts` and `cmd_head` hold what the
caller stored there before the call. -/
def parse_opts (opts : List Char) (args : List String) (jobs : List sdp_work)
    (verify usectsrts : Int) (cmd_head : List sdp_work) : Opts :=
  match parse_opts_loop opts verify usectsrts with
  | (err, v, u) =>
    if err < 0 then ⟨-1, none, none, v, u, cmd_head⟩
    else
      match args with
      | [] => ⟨-1, none, none, v, u, cmd_head⟩
      | tty :: [] => ⟨-1, some tty, none, v, u, cmd_head⟩
      | tty :: conf :: [] => ⟨0, some tty, some conf, v, u, cmd_head⟩
      | tty :: conf :: _ :: _ => ⟨0, some tty, some conf, v, u, jobs⟩

/-- Everything `main` takes from outside. -/
structure MainEnv where
  opts : List Char
  args : List String
  jobs : List sdp_work
  /-- the value the local `curr` holds before `parse_opts` runs -/
  curr0 : List sdp_work
  /-- `conf_file_name` found the file -/
  conf_found : Bool
  /-- `p_id->work` when `parse_conf` succeeds, `none` when it returns NULL -/
  conf_work : Option (List sdp_work)
  open_ret : Int
  tcsetattr_ret : Int
  script : List ReadCall
  cmd : Cmd

/-- `main`: the exit status, `none` when `main` has not returned (it waits in
the handshake, or the work loop is not left within `fuel` turns). -/
def main (fuel : Nat) (e : MainEnv) : Option Int :=
  let o := parse_opts e.opts e.args e.jobs 0 1 e.curr0
  if o.err < 0 then some o.err
  else if !e.conf_found then some (-1)
  else
    match e.conf_work with
    | none => some (-1)
    | some work =>
      match (connect_uart o.usectsrts e.open_ret e.tcsetattr_ret e.script).ret with
      | none => none
      | some err =>
        if err < 0 then some 0   -- goto out
        else
          -- err = do_status(p_id);
          let err1 := e.cmd.status 0
          if err1 ≠ 0 then some 0  -- goto out
          else
            let curr := if o.cmd_head = [] then work else o.cmd_head
            match work_loop e.cmd fuel ⟨curr, 0, err1, 0, 1, [Ev.status err1]⟩ with
            | none => none
            | some _ => some 0


/-! ## Arithmetic and memory lemmas -/

theorem wrapInt_of_range (x : Int) (h0 : -2147483648 ≤ x) (h1 : x ≤ 2147483647) :
    wrapInt x = x := by
  unfold wrapInt; omega

theorem toUnsigned_of_range (x : Int) (h0 : 0 ≤ x) (h1 : x ≤ 4294967295) :
    (toUnsigned x : Int) = x := by
  unfold toUnsigned; omega

theorem toSizeT_of_range (x : Int) (h0 : 0 ≤ x) (h1 : x ≤ 4294967295) :
    (toSizeT x : Int) = x := by
  unfold toSizeT; omega

theorem store_nil (m : Mem) (p : Nat) : store m p [] = m := by
  funext a; simp [store]

theorem store_below (m : Mem) (p : Nat) (d : List Nat) (a : Nat) (h : a < p) :
    store m p d a = m a := by
  simp [store]; intro h1; omega

theorem store_at (m : Mem) (p : Nat) (d : List Nat) (i : Nat) (h : i < d.length) :
    store m p d (p + i) = d.getD i 0 := by
  simp [store, h]

/-- Events are appended to the log that is passed in. -/
theorem read_loop_log (fd : Int) (N : Nat) (script : List ReadCall) :
    ∀ (lt : Int) (p : Nat) (mem : Mem) (log : List Sys),
      (read_loop fd N script lt p mem log).ret = (read_loop fd N script lt p mem []).ret ∧
      (read_loop fd N script lt p mem log).last_trans
        = (read_loop fd N script lt p mem []).last_trans ∧
      (read_loop fd N script lt p mem log).mem = (read_loop fd N script lt p mem []).mem ∧
      (read_loop fd N script lt p mem log).log
        = log ++ (read_loop fd N script lt p mem []).log := by
  induction script with
  | nil => intro lt p mem log; unfold read_loop; split <;> simp
  | cons rc rest ih =>
    intro lt p mem log
    unfold read_loop
    split
    · simp only []
      split
      · simp
      · have h1 := ih (wrapInt (lt + rc.ret)) (p + rc.ret.toNat) (store mem p rc.data)
          (log ++ [Sys.read fd p (toUnsigned ((N : Int) - lt)) rc])
        have h2 := ih (wrapInt (lt + rc.ret)) (p + rc.ret.toNat) (store mem p rc.data)
          ([] ++ [Sys.read fd p (toUnsigned ((N : Int) - lt)) rc])
        obtain ⟨a1, a2, a3, a4⟩ := h1
        obtain ⟨b1, b2, b3, b4⟩ := h2
        refine ⟨by rw [a1, b1], by rw [a2, b2], by rw [a3, b3], ?_⟩
        rw [a4, b4]; simp
    · simp

theorem read_loop_done (fd : Int) (N : Nat) (script : List ReadCall) (lt : Int) (p : Nat)
    (mem : Mem) (log : List Sys) (h : ¬ toUnsigned lt < N) :
    read_loop fd N script lt p mem log = ⟨some 0, lt, mem, log⟩ := by
  cases script <;> simp [read_loop, h]

theorem read_loop_wait (fd : Int) (N : Nat) (lt : Int) (p : Nat)
    (mem : Mem) (log : List Sys) (h : toUnsigned lt < N) :
    read_loop fd N [] lt p mem log = ⟨none, lt, mem, log⟩ := by
  simp [read_loop, h]

theorem read_loop_fail (fd : Int) (N : Nat) (rc : ReadCall) (rest : List ReadCall) (lt : Int)
    (p : Nat) (mem : Mem) (log : List Sys) (h : toUnsigned lt < N) (hr : rc.ret < 0) :
    read_loop fd N (rc :: rest) lt p mem log
      = ⟨some rc.ret, lt, store mem p rc.data,
          log ++ [Sys.read fd p (toUnsigned ((N : Int) - lt)) rc]⟩ := by
  simp [read_loop, h, hr]

theorem read_loop_next (fd : Int) (N : Nat) (rc : ReadCall) (rest : List ReadCall) (lt : Int)
    (p : Nat) (mem : Mem) (log : List Sys) (h : toUnsigned lt < N) (hr : ¬ rc.ret < 0) :
    read_loop fd N (rc :: rest) lt p mem log
      = read_loop fd N rest (wrapInt (lt + rc.ret)) (p + rc.ret.toNat) (store mem p rc.data)
          (log ++ [Sys.read fd p (toUnsigned ((N : Int) - lt)) rc]) := by
  simp [read_loop, h, hr]

theorem LoopSpec_cons (N : Nat) (lt : Int) (p n : Nat) (fd : Int) (c : Nat) (rc : ReadCall)
    (ret : Option Int) (last_trans : Int) (mem0 mem : Mem) (log : List Sys)
    (h0 : 0 ≤ rc.ret) (hlen : (rc.data.length : Int) = rc.ret)
    (hframe : ∀ a, a < p + rc.ret.toNat → mem a = store mem0 p rc.data a)
    (h : LoopSpec N (lt + rc.ret) (p + rc.ret.toNat) n ret last_trans mem log) :
    LoopSpec N lt p (n + 1) ret last_trans mem (Sys.read fd p c rc :: log) := by
  cases ret with
  | none =>
    simp only [LoopSpec] at h ⊢
    obtain ⟨a, b, c⟩ := h
    refine ⟨by simp [a], ?_, ?_⟩
    · intro e he
      rcases List.mem_cons.1 he with rfl | he
      · simpa [Sys.ret] using h0
      · exact b e he
    · simp only [sumRets, Sys.ret]; omega
  | some v =>
    simp only [LoopSpec] at h ⊢
    rcases h with ⟨hv, hl, hnn, hsum, hdl, hmem⟩ | ⟨hv, pre, last, hlog, hlast, hnn, hl, hsum⟩
    · left
      refine ⟨hv, hl, ?_, ?_, ?_, ?_⟩
      · intro e he
        rcases List.mem_cons.1 he with rfl | he
        · simpa [Sys.ret] using h0
        · exact hnn e he
      · simp only [sumRets, Sys.ret]; omega
      · simp only [delivered, Sys.data, List.length_append]; push_cast; omega
      · intro i hi
        simp only [delivered, Sys.data, List.length_append] at hi ⊢
        have hk : rc.data.length = rc.ret.toNat := by omega
        by_cases hlt : i < rc.data.length
        · rw [hframe (p + i) (by omega), store_at mem0 p rc.data i hlt]
          simp [List.getD, List.getElem?_append_left hlt]
        · have hge : rc.data.length ≤ i := by omega
          have := hmem (i - rc.data.length) (by omega)
          rw [show p + i = p + rc.ret.toNat + (i - rc.data.length) by omega, this]
          simp [List.getD, List.getElem?_append_right hge]
    · right
      refine ⟨hv, Sys.read fd p c rc :: pre, last, by simp [hlog], hlast, ?_, ?_, ?_⟩
      · intro e he
        rcases List.mem_cons.1 he with rfl | he
        · simpa [Sys.ret] using h0
        · exact hnn e he
      · simp only [sumRets, Sys.ret]; omega
      · simp only [sumRets, Sys.ret]; omega

/-- The read loop of `transfer_uart`, entered with a running total between 0
and `N`, when every read is answered as read(2) answers. -/
theorem read_loop_spec (fd : Int) (N : Nat) (hN : (N : Int) ≤ 2147483647)
    (script : List ReadCall) :
    ∀ (lt : Int) (p : Nat) (mem : Mem), 0 ≤ lt → lt ≤ N →
      (∀ e ∈ (read_loop fd N script lt p mem []).log, e.readOK) →
      (∀ a, a < p → (read_loop fd N script lt p mem []).mem a = mem a) ∧
      LoopSpec N lt p script.length (read_loop fd N script lt p mem []).ret
        (read_loop fd N script lt p mem []).last_trans
        (read_loop fd N script lt p mem []).mem (read_loop fd N script lt p mem []).log := by
  induction script with
  | nil =>
    intro lt p mem h0 h1 _
    have hu := toUnsigned_of_range lt h0 (by omega)
    by_cases hc : toUnsigned lt < N
    · rw [read_loop_wait _ _ _ _ _ _ hc]
      refine ⟨fun _ _ => rfl, ?_⟩
      simp only [LoopSpec, sumRets]
      refine ⟨by simp, by simp, by omega⟩
    · rw [read_loop_done _ _ _ _ _ _ _ hc]
      refine ⟨fun _ _ => rfl, ?_⟩
      simp only [LoopSpec, sumRets, delivered]
      left
      refine ⟨by simp, by omega, by simp, by omega, by simp; omega, by simp⟩
  | cons rc rest ih =>
    intro lt p mem h0 h1 hwf
    have hu := toUnsigned_of_range lt h0 (by omega)
    have hu2 := toUnsigned_of_range ((N : Int) - lt) (by omega) (by omega)
    by_cases hc : toUnsigned lt < N
    · by_cases hr : rc.ret < 0
      · rw [read_loop_fail _ _ _ _ _ _ _ _ hc hr]
        refine ⟨fun a ha => store_below _ _ _ _ ha, ?_⟩
        simp only [LoopSpec]
        right
        refine ⟨hr, [], Sys.read fd p (toUnsigned ((N : Int) - lt)) rc, by simp, by simp [Sys.ret],
          by simp, by simp [sumRets], ?_⟩
        simp only [sumRets]; omega
      · rw [read_loop_next _ _ _ _ _ _ _ _ hc hr] at hwf ⊢
        obtain ⟨e1, e2, e3, e4⟩ := read_loop_log fd N rest (wrapInt (lt + rc.ret))
          (p + rc.ret.toNat) (store mem p rc.data)
          ([] ++ [Sys.read fd p (toUnsigned ((N : Int) - lt)) rc])
        rw [e4] at hwf
        rw [e1, e2, e3, e4]
        have hok := hwf (Sys.read fd p (toUnsigned ((N : Int) - lt)) rc) (by simp)
        simp only [Sys.readOK] at hok
        rcases hok with hneg | ⟨hr0, hle, hlen⟩
        · exact absurd hneg hr
        · have hw : wrapInt (lt + rc.ret) = lt + rc.ret :=
            wrapInt_of_range _ (by omega) (by omega)
          rw [hw] at hwf ⊢
          obtain ⟨hfr, hspec⟩ := ih (lt + rc.ret) (p + rc.ret.toNat) (store mem p rc.data)
            (by omega) (by omega) (fun e he => hwf e (by simp [he]))
          refine ⟨fun a ha => ?_, ?_⟩
          · rw [hfr a (by omega), store_below _ _ _ _ ha]
          · simpa using LoopSpec_cons N lt p rest.length fd _ rc _ _ mem _ _ hr0 hlen hfr hspec
    · rw [read_loop_done _ _ _ _ _ _ _ hc]
      refine ⟨fun _ _ => rfl, ?_⟩
      simp only [LoopSpec, sumRets, delivered]
      left
      refine ⟨by simp, by omega, by simp, by omega, by simp; omega, by simp⟩

theorem read_loop_reads (fd : Int) (N : Nat) (script : List ReadCall) :
    ∀ (lt : Int) (p : Nat) (mem : Mem),
      ∀ e ∈ (read_loop fd N script lt p mem []).log, e.isRead = true ∧ e.isWrite = false := by
  induction script with
  | nil => intro lt p mem e he; unfold read_loop at he; split at he <;> simp at he
  | cons rc rest ih =>
    intro lt p mem e he
    by_cases hc : toUnsigned lt < N
    · by_cases hr : rc.ret < 0
      · rw [read_loop_fail _ _ _ _ _ _ _ _ hc hr] at he
        simp at he; subst he; simp [Sys.isRead, Sys.isWrite]
      · rw [read_loop_next _ _ _ _ _ _ _ _ hc hr, (read_loop_log _ _ _ _ _ _ _).2.2.2] at he
        simp at he
        rcases he with rfl | he
        · simp [Sys.isRead, Sys.isWrite]
        · exact ih _ _ _ e he
    · rw [read_loop_done _ _ _ _ _ _ _ hc] at he; simp at he

theorem load_eq_of_pointwise (m : Mem) (p n : Nat) (d : List Nat) (hlen : d.length = n)
    (h : ∀ i, i < d.length → m (p + i) = d.getD i 0) : load m p n = d := by
  apply List.ext_getElem
  · simp [load, hlen]
  · intro i h1 h2
    simp only [load, List.getElem_map, List.getElem_range]
    rw [h i h2]
    simp [List.getD, List.getElem?_eq_getElem h2]

/-! ## The handshake loop as a read loop for 4 bytes -/

theorem magic_loop_keeps_log (fd : Int) (script : List ReadCall) :
    ∀ (count : Int) (buf : Nat) (resp : Mem) (log : List Sys),
      ∀ e ∈ log, e ∈ (magic_loop fd script count buf resp log).log := by
  induction script with
  | nil => intro count buf resp log e he; unfold magic_loop; split <;> simpa using he
  | cons rc rest ih =>
    intro count buf resp log e he
    unfold magic_loop
    split
    · simp only []
      split
      · simp [he]
      · exact ih _ _ _ _ e (by simp [he])
    · simpa using he

theorem magic_loop_eq_read_loop (fd : Int) (script : List ReadCall) :
    ∀ (count : Int) (buf : Nat) (resp : Mem) (log : List Sys), 0 ≤ count → count ≤ 4 →
      ((∀ e ∈ (magic_loop fd script count buf resp log).log, e.readOK) ∨
        (∀ e ∈ (read_loop fd 4 script count buf resp log).log, e.readOK)) →
      (magic_loop fd script count buf resp log).exit
          = toWait (read_loop fd 4 script count buf resp log).ret ∧
      (magic_loop fd script count buf resp log).response
          = (read_loop fd 4 script count buf resp log).mem ∧
      (magic_loop fd script count buf resp log).log
          = (read_loop fd 4 script count buf resp log).log := by
  induction script with
  | nil =>
    intro count buf resp log h0 h4 _
    have hu := toUnsigned_of_range count h0 (by omega)
    by_cases hc : count < 4
    · have hc2 : toUnsigned count < 4 := by omega
      simp [magic_loop, read_loop, hc, hc2, toWait]
    · have hc2 : ¬ toUnsigned count < 4 := by omega
      simp [magic_loop, read_loop, hc, hc2, toWait]
  | cons rc rest ih =>
    intro count buf resp log h0 h4 hwf
    have hu := toUnsigned_of_range count h0 (by omega)
    by_cases hc : count < 4
    · have hc2 : toUnsigned count < 4 := by omega
      have hcount : toSizeT (wrapInt (4 - count)) = toUnsigned (((4 : Nat) : Int) - count) := by
        have h1 := wrapInt_of_range (4 - count) (by omega) (by omega)
        have h2 := toSizeT_of_range (4 - count) (by omega) (by omega)
        have h3 := toUnsigned_of_range (((4 : Nat) : Int) - count) (by omega) (by omega)
        rw [h1]
        have : ((4 : Nat) : Int) = 4 := rfl
        omega
      by_cases hr : rc.ret < 0
      · rw [read_loop_fail _ _ _ _ _ _ _ _ hc2 hr]
        simp [magic_loop, hc, hr, toWait, hcount]
      · have hm : magic_loop fd (rc :: rest) count buf resp log
            = magic_loop fd rest (wrapInt (count + rc.ret)) (buf + rc.ret.toNat)
                (store resp buf rc.data)
                (log ++ [Sys.read fd buf (toUnsigned (((4 : Nat) : Int) - count)) rc]) := by
          simp [magic_loop, hc, hr, hcount]
        rw [read_loop_next _ _ _ _ _ _ _ _ hc2 hr] at hwf ⊢
        rw [hm] at hwf ⊢
        have hok : (Sys.read fd buf (toUnsigned (((4 : Nat) : Int) - count)) rc).readOK := by
          rcases hwf with hwf | hwf
          · exact hwf _ (magic_loop_keeps_log _ _ _ _ _ _ _ (by simp))
          · apply hwf
            rw [(read_loop_log _ _ _ _ _ _ _).2.2.2]
            simp
        simp only [Sys.readOK] at hok
        rcases hok with hneg | ⟨hr0, hle, -⟩
        · exact absurd hneg hr
        · have h3 := toUnsigned_of_range (((4 : Nat) : Int) - count) (by omega) (by omega)
          have h44 : ((4 : Nat) : Int) = 4 := rfl
          have hw := wrapInt_of_range (count + rc.ret) (by omega) (by omega)
          exact ih _ _ _ _ (by omega) (by omega) hwf
    · have hc2 : ¬ toUnsigned count < 4 := by omega
      rw [read_loop_done _ _ _ _ _ _ _ hc2]
      simp [magic_loop, hc, toWait]

theorem sumRets_append (l1 l2 : List Sys) : sumRets (l1 ++ l2) = sumRets l1 + sumRets l2 := by
  induction l1 with
  | nil => simp [sumRets]
  | cons e es ih => rw [List.cons_append]; simp only [sumRets]; rw [ih]; omega

theorem delivered_append (l1 l2 : List Sys) :
    delivered (l1 ++ l2) = delivered l1 ++ delivered l2 := by
  induction l1 with
  | nil => simp [delivered]
  | cons e es ih => rw [List.cons_append]; simp only [delivered]; rw [ih, List.append_assoc]

/-- When every read is answered as read(2) answers and none fails, the number
of bytes delivered is the sum of the counts returned. -/
theorem delivered_length (log : List Sys) (hok : ∀ e ∈ log, e.readOK)
    (hnn : ∀ e ∈ log, 0 ≤ e.ret) : ((delivered log).length : Int) = sumRets log := by
  induction log with
  | nil => simp [delivered, sumRets]
  | cons e es ih =>
    have h1 := ih (fun x hx => hok x (by simp [hx])) (fun x hx => hnn x (by simp [hx]))
    have h2 := hok e (by simp)
    have h3 := hnn e (by simp)
    simp only [delivered, sumRets, List.length_append]
    push_cast
    rw [h1]
    cases e <;> simp_all [Sys.readOK, Sys.ret, Sys.data]
    omega

theorem magic_cmp_iff (m : Mem) :
    (List.range 4).any (fun i => magic.getD i 0 != m i) = false ↔ load m 0 4 = magic := by
  simp only [load, magic]
  simp only [show List.range 4 = [0, 1, 2, 3] by decide]
  simp only [List.any, List.map, List.getD]
  simp
  constructor
  · rintro ⟨a, b, c, d⟩; exact ⟨a.symm, b.symm, c.symm, d.symm⟩
  · rintro ⟨a, b, c, d⟩; exact ⟨a.symm, b.symm, c.symm, d.symm⟩

/-- The cases of `connect_uart` once `open` and `tcsetattr` have succeeded: the
five calls before the read loop, then the reads of a read loop for 4 bytes. -/
theorem connect_uart_cases (usectsrts o t : Int) (script : List ReadCall)
    (ho : 0 ≤ o) (ht : 0 ≤ t)
    (hwf : (∀ e ∈ (connect_uart usectsrts o t script).log, e.readOK) ∨
      (∀ e ∈ (read_loop o 4 script 0 0 (fun _ => 0) []).log, e.readOK)) :
    (connect_uart usectsrts o t script).log
      = [Sys.opened o, Sys.tcsetattr o (usectsrts != 0) t, Sys.tcflush o,
          Sys.write o magic, Sys.tcflush o] ++ (read_loop o 4 script 0 0 (fun _ => 0) []).log ∧
    (∀ e ∈ (read_loop o 4 script 0 0 (fun _ => 0) []).log, e.isRead = true) ∧
    (∀ e ∈ (read_loop o 4 script 0 0 (fun _ => 0) []).log, e.readOK) ∧
    (((connect_uart usectsrts o t script).ret = none ∧
        (read_loop o 4 script 0 0 (fun _ => 0) []).log.length = script.length ∧
        (∀ e ∈ (read_loop o 4 script 0 0 (fun _ => 0) []).log, 0 ≤ e.ret) ∧
        sumRets (read_loop o 4 script 0 0 (fun _ => 0) []).log < 4)
     ∨ (∃ v, (connect_uart usectsrts o t script).ret = some v ∧ v < 0 ∧
          ∃ pre last, (read_loop o 4 script 0 0 (fun _ => 0) []).log = pre ++ [last] ∧
            last.ret = v ∧ (∀ e ∈ pre, 0 ≤ e.ret))
     ∨ ((∀ e ∈ (read_loop o 4 script 0 0 (fun _ => 0) []).log, 0 ≤ e.ret) ∧
          sumRets (read_loop o 4 script 0 0 (fun _ => 0) []).log = 4 ∧
          (delivered (read_loop o 4 script 0 0 (fun _ => 0) []).log).length = 4 ∧
          (connect_uart usectsrts o t script).ret
            = if delivered (read_loop o 4 script 0 0 (fun _ => 0) []).log = magic
              then some 0 else some (-1))) := by
  have ho2 : ¬ o < 0 := by omega
  have ht2 : ¬ t < 0 := by omega
  simp only [connect_uart, ho2, ht2, if_false] at hwf ⊢
  generalize hlog2 : [Sys.opened o] ++ [Sys.tcsetattr o (usectsrts != 0) t]
      ++ [Sys.tcflush o, Sys.write o magic, Sys.tcflush o] = log2 at hwf ⊢
  obtain ⟨r1, -, r3, r4⟩ := read_loop_log o 4 script 0 0 (fun _ => 0) log2
  have hor : (∀ e ∈ (magic_loop o script 0 0 (fun _ => 0) log2).log, e.readOK) ∨
      (∀ e ∈ (read_loop o 4 script 0 0 (fun _ => 0) log2).log, e.readOK) := by
    rcases hwf with hwf | hwf
    · left
      intro e he
      have := hwf e
      revert this
      cases (magic_loop o script 0 0 (fun _ => 0) log2).exit <;> simp only [] <;>
        (try split) <;> exact fun h => h he
    · right
      intro e he
      rw [r4] at he
      rcases List.mem_append.1 he with h | h
      · rw [← hlog2] at h
        simp at h
        rcases h with rfl | rfl | rfl | rfl | rfl <;> simp [Sys.readOK]
      · exact hwf e h
  obtain ⟨hexit, hresp, hlog⟩ := magic_loop_eq_read_loop o script 0 0 (fun _ => 0) log2
    (le_refl 0) (by omega) hor
  have hwfR : ∀ e ∈ (read_loop o 4 script 0 0 (fun _ => 0) []).log, e.readOK := by
    intro e he
    rcases hor with h | h
    · apply h; rw [hlog, r4]; simp [he]
    · apply h; rw [r4]; simp [he]
  obtain ⟨-, hspec⟩ := read_loop_spec o 4 (by decide) script 0 0 (fun _ => 0) (le_refl 0)
    (by decide) hwfR
  refine ⟨?_, ?_, hwfR, ?_⟩
  · have : ∀ (x : Connect), x.log = (magic_loop o script 0 0 (fun _ => 0) log2).log →
        x.log = [Sys.opened o, Sys.tcsetattr o (usectsrts != 0) t, Sys.tcflush o,
            Sys.write o magic, Sys.tcflush o] ++ (read_loop o 4 script 0 0 (fun _ => 0) []).log := by
      intro x hx
      rw [hx, hlog, r4, ← hlog2]
      simp
    apply this
    cases (magic_loop o script 0 0 (fun _ => 0) log2).exit <;> simp only []
    all_goals first | rfl | (split <;> rfl)
  · exact fun e he => (read_loop_reads o 4 script 0 0 (fun _ => 0) e he).1
  · rw [hexit, r1, hresp, r3]
    cases hret : (read_loop o 4 script 0 0 (fun _ => 0) []).ret with
    | none =>
      rw [hret] at hspec
      simp only [LoopSpec] at hspec
      left
      simp only [toWait]
      exact ⟨trivial, hspec.1, hspec.2.1, by have := hspec.2.2; omega⟩
    | some v =>
      rw [hret] at hspec
      simp only [LoopSpec] at hspec
      rcases hspec with ⟨h1, -, h3, h4, h5, h6⟩ | ⟨h1, pre, last, h2, h3, h4, -⟩
      · right; right
        subst h1
        have hld := load_eq_of_pointwise _ 0 4 _ (by omega) h6
        refine ⟨h3, by omega, by omega, ?_⟩
        simp only [toWait, lt_irrefl, if_false]
        by_cases hm : delivered (read_loop o 4 script 0 0 (fun _ => 0) []).log = magic
        · have := (magic_cmp_iff (read_loop o 4 script 0 0 (fun _ => 0) []).mem).2
            (by rw [hld, hm])
          simp only [this, hm, if_true]
          simp
        · have : (List.range 4).any (fun i =>
              magic.getD i 0 != (read_loop o 4 script 0 0 (fun _ => 0) []).mem i) = true := by
            cases hb : (List.range 4).any (fun i =>
              magic.getD i 0 != (read_loop o 4 script 0 0 (fun _ => 0) []).mem i) with
            | true => rfl
            | false =>
              have := (magic_cmp_iff _).1 hb
              rw [hld] at this
              exact absurd this hm
          simp only [this, hm, if_true, if_false]
      · right; left
        refine ⟨v, ?_, h1, pre, last, h2, h3, h4⟩
        simp [toWait, h1]

/-- A read loop fed the chunks of a byte string of exactly the missing length:
every read is answered as read(2) answers, none fails, and the bytes delivered
are the string. -/
theorem read_loop_chunks (fd : Int) (N : Nat) (hN : (N : Int) ≤ 2147483647)
    (chunks : List (List Nat)) :
    ∀ (lt : Int) (p : Nat) (mem : Mem), 0 ≤ lt → lt ≤ N →
      (chunks.flatten.length : Int) = N - lt →
      (∀ e ∈ (read_loop fd N (chunks.map (fun d => ⟨d.length, d⟩)) lt p mem []).log, e.readOK) ∧
      (∀ e ∈ (read_loop fd N (chunks.map (fun d => ⟨d.length, d⟩)) lt p mem []).log, 0 ≤ e.ret) ∧
      delivered (read_loop fd N (chunks.map (fun d => ⟨d.length, d⟩)) lt p mem []).log
        = chunks.flatten := by
  induction chunks with
  | nil =>
    intro lt p mem h0 h1 hlen
    simp at hlen
    have hu := toUnsigned_of_range lt h0 (by omega)
    have hc : ¬ toUnsigned lt < N := by omega
    simp only [List.map_nil]
    rw [read_loop_done _ _ _ _ _ _ _ hc]
    simp [delivered]
  | cons c cs ih =>
    intro lt p mem h0 h1 hlen
    have hu := toUnsigned_of_range lt h0 (by omega)
    have hu2 := toUnsigned_of_range ((N : Int) - lt) (by omega) (by omega)
    simp only [List.flatten_cons, List.length_append] at hlen
    push_cast at hlen
    simp only [List.map_cons]
    by_cases hc : toUnsigned lt < N
    · have hr : ¬ (⟨c.length, c⟩ : ReadCall).ret < 0 := by simp
      rw [read_loop_next _ _ _ _ _ _ _ _ hc hr]
      obtain ⟨-, -, -, e4⟩ := read_loop_log fd N (cs.map (fun d => ⟨d.length, d⟩))
        (wrapInt (lt + (c.length : Int))) (p + (c.length : Int).toNat) (store mem p c)
        ([] ++ [Sys.read fd p (toUnsigned ((N : Int) - lt)) ⟨c.length, c⟩])
      rw [e4]
      have hw : wrapInt (lt + (c.length : Int)) = lt + c.length :=
        wrapInt_of_range _ (by omega) (by omega)
      rw [hw]
      obtain ⟨i1, i2, i3⟩ := ih (lt + c.length) (p + (c.length : Int).toNat) (store mem p c)
        (by omega) (by omega) (by omega)
      refine ⟨?_, ?_, ?_⟩
      · intro e he
        simp only [List.nil_append, List.singleton_append, List.mem_cons] at he
        rcases he with rfl | he
        · simp only [Sys.readOK]
          right
          exact ⟨by omega, by omega, trivial⟩
        · exact i1 e he
      · intro e he
        simp only [List.nil_append, List.singleton_append, List.mem_cons] at he
        rcases he with rfl | he
        · simp [Sys.ret]
        · exact i2 e he
      · rw [List.nil_append, List.singleton_append]
        simp only [delivered, Sys.data, i3, List.flatten_cons]
    · rw [read_loop_done _ _ _ _ _ _ _ hc]
      have hc0 : c.length = 0 := by omega
      have hcs0 : cs.flatten.length = 0 := by omega
      have e1 : c = [] := List.length_eq_zero.1 hc0
      have e2 : cs.flatten = [] := List.length_eq_zero.1 hcs0
      simp [delivered, e1, e2]

/-- With 3 bytes received, reads that return 0 keep the handshake loop waiting. -/
theorem magic_loop_zero_reads (fd : Int) :
    ∀ (n : Nat) (resp : Mem) (log : List Sys),
      (magic_loop fd (List.replicate n ⟨0, []⟩) 3 3 resp log).exit = Wait.blocked ∧
      ((∀ e ∈ log, e.readOK) →
        ∀ e ∈ (magic_loop fd (List.replicate n ⟨0, []⟩) 3 3 resp log).log, e.readOK) := by
  intro n
  induction n with
  | zero => intro resp log; simp [magic_loop]
  | succ n ih =>
    intro resp log
    have hw : wrapInt 3 = 3 := by decide
    have hstep : magic_loop fd (List.replicate (n + 1) ⟨0, []⟩) 3 3 resp log
        = magic_loop fd (List.replicate n ⟨0, []⟩) 3 3 (store resp 3 [])
            (log ++ [Sys.read fd 3 (toSizeT (wrapInt (4 - 3))) ⟨0, []⟩]) := by
      rw [List.replicate_succ, magic_loop]
      simp [hw]
    rw [hstep]
    obtain ⟨h1, h2⟩ := ih (store resp 3 [])
      (log ++ [Sys.read fd 3 (toSizeT (wrapInt (4 - 3))) ⟨0, []⟩])
    refine ⟨h1, fun hlog => h2 ?_⟩
    intro e he
    rcases List.mem_append.1 he with h | h
    · exact hlog e h
    · simp at h; subst h
      simp only [Sys.readOK]
      right
      decide

/-! ## The work loop, turn by turn -/

/-- One turn of the work loop entered with `err = 0`. -/
theorem work_loop_turn (cmd : Cmd) (fuel : Nat) (s : Loop) (it : sdp_work)
    (hit : s.chain[s.curr]? = some it) (herr : s.err = 0) :
    work_loop cmd (fuel + 1) s =
      if it.filename.headD 0 ≠ 0 ∧ cmd.download s.ndl ≠ 0 then
        some ⟨s.chain, s.curr, cmd.status s.nst, s.ndl + 1, s.nst + 1,
          s.log ++ turnEvents s.curr it (cmd.download s.ndl) ++ [Ev.status (cmd.status s.nst)]⟩
      else if s.chain[s.curr + 1]? = none ∧ it.plug = 0 then
        some ⟨s.chain, s.curr, 0, if it.filename.headD 0 ≠ 0 then s.ndl + 1 else s.ndl, s.nst,
          s.log ++ turnEvents s.curr it (cmd.download s.ndl)⟩
      else if cmd.status s.nst ≠ 0 then
        some ⟨s.chain, s.curr, cmd.status s.nst,
          if it.filename.headD 0 ≠ 0 then s.ndl + 1 else s.ndl, s.nst + 1,
          s.log ++ turnEvents s.curr it (cmd.download s.ndl) ++ [Ev.status (cmd.status s.nst)]⟩
      else if it.plug ≠ 0 then
        work_loop cmd fuel ⟨s.chain.set s.curr { it with plug := 0 }, s.curr, cmd.status s.nst,
          if it.filename.headD 0 ≠ 0 then s.ndl + 1 else s.ndl, s.nst + 1,
          s.log ++ turnEvents s.curr it (cmd.download s.ndl) ++ [Ev.status (cmd.status s.nst)]⟩
      else
        work_loop cmd fuel ⟨s.chain, s.curr + 1, cmd.status s.nst,
          if it.filename.headD 0 ≠ 0 then s.ndl + 1 else s.ndl, s.nst + 1,
          s.log ++ turnEvents s.curr it (cmd.download s.ndl) ++ [Ev.status (cmd.status s.nst)]⟩ := by
  obtain ⟨chain, curr, err, ndl, nst, log⟩ := s
  simp only at hit herr
  subst herr
  rw [work_loop]
  simp only [hit, turnEvents]
  generalize it.filename.headD 0 = x
  by_cases hm : it.mem = true <;> by_cases hf : x = 0 <;>
    by_cases hd : cmd.download ndl = 0 <;>
    simp [hm, hf, hd]

theorem drop_of_getElem? (chain : List sdp_work) :
    ∀ (curr : Nat) (it : sdp_work), chain[curr]? = some it →
      chain.drop curr = it :: chain.drop (curr + 1) := by
  induction chain with
  | nil => intro curr it h; simp at h
  | cons a as ih =>
    intro curr it h
    cases curr with
    | zero => simp at h; simp [h]
    | succ n => simp at h; simpa using ih n it h

theorem drop_set_of_getElem? (chain : List sdp_work) (x : sdp_work) :
    ∀ (curr : Nat) (it : sdp_work), chain[curr]? = some it →
      (chain.set curr x).drop curr = x :: chain.drop (curr + 1) := by
  induction chain with
  | nil => intro curr it h; simp at h
  | cons a as ih =>
    intro curr it h
    cases curr with
    | zero => simp
    | succ n => simp at h; simpa using ih n it h

theorem turns_le (chain : List sdp_work) : turns chain ≤ 2 * chain.length := by
  induction chain with
  | nil => simp [turns]
  | cons a as ih => simp only [turns, List.length_cons]; split <;> omega

theorem turns_drop_le (chain : List sdp_work) (n : Nat) : turns (chain.drop n) ≤ turns chain := by
  induction chain generalizing n with
  | nil => simp [turns]
  | cons a as ih =>
    cases n with
    | zero => simp
    | succ k => simp only [List.drop_succ_cons, turns]; have := ih k; omega

/-- The work loop, entered with `err = 0`, is left within the number of turns
its remaining items allow. -/
theorem work_loop_terminates (cmd : Cmd) :
    ∀ (fuel : Nat) (s : Loop), s.err = 0 → turns (s.chain.drop s.curr) < fuel →
      ∃ res, work_loop cmd fuel s = some res := by
  intro fuel
  induction fuel with
  | zero => intro s _ h; omega
  | succ fuel ih =>
    intro s herr hfuel
    cases hit : s.chain[s.curr]? with
    | none => exact ⟨s, by rw [work_loop]; simp [hit]⟩
    | some it =>
      rw [work_loop_turn cmd fuel s it hit herr]
      have hdrop := drop_of_getElem? s.chain s.curr it hit
      rw [hdrop] at hfuel
      simp only [turns] at hfuel
      split
      · exact ⟨_, rfl⟩
      · split
        · exact ⟨_, rfl⟩
        · split
          · exact ⟨_, rfl⟩
          · rename_i hst
            have hst0 : cmd.status s.nst = 0 := by simpa using hst
            split
            · rename_i hplug
              apply ih
              · exact hst0
              · simp only []
                rw [drop_set_of_getElem? s.chain _ s.curr it hit]
                simp only [turns]
                rw [if_pos hplug] at hfuel
                simp
                omega
            · apply ih
              · exact hst0
              · simp only []
                split at hfuel <;> omega

theorem stopsOnError_append_ok (l1 l2 : List Ev) (h : ∀ e ∈ l1, e.failed = false) :
    stopsOnError (l1 ++ l2) = stopsOnError l2 := by
  induction l1 with
  | nil => rfl
  | cons e es ih =>
    rw [List.cons_append]
    simp only [stopsOnError]
    rw [ih (fun x hx => h x (by simp [hx])), h e (by simp)]
    simp

theorem stopsOnError_spec (evs : List Ev) (h : stopsOnError evs = true) :
    ∀ pre e post, evs = pre ++ e :: post → e.failed = true → ∀ x ∈ post, x.isWork = false := by
  induction evs with
  | nil => intro pre e post h1; simp at h1
  | cons a as ih =>
    intro pre e post h1 hf x hx
    simp only [stopsOnError, Bool.and_eq_true, Bool.or_eq_true] at h
    cases pre with
    | nil =>
      simp only [List.nil_append, List.cons.injEq] at h1
      obtain ⟨rfl, rfl⟩ := h1
      rcases h.1 with h2 | h2
      · simp [hf] at h2
      · simpa using List.all_eq_true.1 h2 x hx
    | cons b bs =>
      simp only [List.cons_append, List.cons.injEq] at h1
      exact ih h.2 bs e post h1.2 hf x hx

theorem turnEvents_ok (i : Nat) (it : sdp_work) (r : Int) (h : it.filename.headD 0 ≠ 0 → r = 0) :
    ∀ e ∈ turnEvents i it r, e.failed = false := by
  intro e he
  simp only [turnEvents, List.mem_append, List.mem_singleton] at he
  rcases he with (rfl | he) | he
  · rfl
  · split at he
    · simp at he; subst he; rfl
    · simp at he
  · split at he
    · rename_i hf
      simp at he; subst he
      simp [Ev.failed, h hf]
    · simp at he

theorem stopsOnError_turn_fail (i : Nat) (it : sdp_work) (r q : Int) :
    stopsOnError (turnEvents i it r ++ [Ev.status q]) = true := by
  simp only [turnEvents]
  split <;> split <;> simp [stopsOnError, Ev.failed, Ev.isWork]

theorem stopsOnError_turn (i : Nat) (it : sdp_work) (r : Int)
    (h : it.filename.headD 0 ≠ 0 → r = 0) : stopsOnError (turnEvents i it r) = true := by
  have := stopsOnError_append_ok (turnEvents i it r) [] (turnEvents_ok i it r h)
  simpa [stopsOnError] using this

/-- Nothing the work loop does after a failed download or status query is a
memory write or a download. -/
theorem work_loop_log (cmd : Cmd) :
    ∀ (fuel : Nat) (s res : Loop), s.err = 0 → work_loop cmd fuel s = some res →
      ∃ evs, res.log = s.log ++ evs ∧ stopsOnError evs = true := by
  intro fuel
  induction fuel with
  | zero => intro s res _ h; simp [work_loop] at h
  | succ fuel ih =>
    intro s res herr h
    cases hit : s.chain[s.curr]? with
    | none =>
      rw [work_loop] at h
      simp only [hit] at h
      cases h
      exact ⟨[], by simp, rfl⟩
    | some it =>
      rw [work_loop_turn cmd fuel s it hit herr] at h
      split at h
      · cases h
        exact ⟨turnEvents s.curr it (cmd.download s.ndl) ++ [Ev.status (cmd.status s.nst)],
              by simp only [List.append_assoc], stopsOnError_turn_fail _ _ _ _⟩
      · rename_i hdl
        have hdl0 : it.filename.headD 0 ≠ 0 → cmd.download s.ndl = 0 := by
          intro hf
          by_contra hne
          exact hdl ⟨hf, hne⟩
        split at h
        · cases h
          exact ⟨_, rfl, stopsOnError_turn _ _ _ hdl0⟩
        · split at h
          · cases h
            exact ⟨turnEvents s.curr it (cmd.download s.ndl) ++ [Ev.status (cmd.status s.nst)],
              by simp only [List.append_assoc], stopsOnError_turn_fail _ _ _ _⟩
          · rename_i hst
            have hst0 : cmd.status s.nst = 0 := by simpa using hst
            have hok : ∀ e ∈ turnEvents s.curr it (cmd.download s.ndl)
                ++ [Ev.status (cmd.status s.nst)], e.failed = false := by
              intro e he
              rcases List.mem_append.1 he with h1 | h1
              · exact turnEvents_ok _ _ _ hdl0 e h1
              · simp at h1; subst h1; simp [Ev.failed, hst0]
            split at h
            · obtain ⟨evs, h1, h2⟩ := ih _ res hst0 h
              refine ⟨turnEvents s.curr it (cmd.download s.ndl)
                ++ [Ev.status (cmd.status s.nst)] ++ evs, ?_, ?_⟩
              · rw [h1]; simp only [List.append_assoc]
              · rw [stopsOnError_append_ok _ _ hok]; exact h2
            · obtain ⟨evs, h1, h2⟩ := ih _ res hst0 h
              refine ⟨turnEvents s.curr it (cmd.download s.ndl)
                ++ [Ev.status (cmd.status s.nst)] ++ evs, ?_, ?_⟩
              · rw [h1]; simp only [List.append_assoc]
              · rw [stopsOnError_append_ok _ _ hok]; exact h2

/-- A turn on an item that is processed without error and is followed by
another: status query, then the next item. -/
theorem work_loop_turn_advance (cmd : Cmd) (fuel : Nat) (s : Loop) (it : sdp_work)
    (hit : s.chain[s.curr]? = some it) (herr : s.err = 0)
    (hdl : cmd.download s.ndl = 0) (hst : cmd.status s.nst = 0) (hplug : it.plug = 0)
    (hnext : s.chain[s.curr + 1]? ≠ none) :
    work_loop cmd (fuel + 1) s
      = work_loop cmd fuel ⟨s.chain, s.curr + 1, 0,
          if it.filename.headD 0 ≠ 0 then s.ndl + 1 else s.ndl, s.nst + 1,
          s.log ++ turnEvents s.curr it 0 ++ [Ev.status 0]⟩ := by
  rw [work_loop_turn cmd fuel s it hit herr]
  have h1 : ¬ (it.filename.headD 0 ≠ 0 ∧ cmd.download s.ndl ≠ 0) := fun h => h.2 hdl
  have h2 : ¬ (s.chain[s.curr + 1]? = none ∧ it.plug = 0) := fun h => hnext h.1
  have h3 : ¬ cmd.status s.nst ≠ 0 := fun h => h hst
  have h4 : ¬ it.plug ≠ 0 := fun h => h hplug
  rw [if_neg h1, if_neg h2, if_neg h3, if_neg h4, hdl, hst]

/-- A turn on an item that is processed without error, has no plug flag and is
the last of the chain: the loop is left. -/
theorem work_loop_turn_last (cmd : Cmd) (fuel : Nat) (s : Loop) (it : sdp_work)
    (hit : s.chain[s.curr]? = some it) (herr : s.err = 0)
    (hdl : cmd.download s.ndl = 0) (hplug : it.plug = 0)
    (hnext : s.chain[s.curr + 1]? = none) :
    work_loop cmd (fuel + 1) s
      = some ⟨s.chain, s.curr, 0,
          if it.filename.headD 0 ≠ 0 then s.ndl + 1 else s.ndl, s.nst,
          s.log ++ turnEvents s.curr it 0⟩ := by
  rw [work_loop_turn cmd fuel s it hit herr]
  have h1 : ¬ (it.filename.headD 0 ≠ 0 ∧ cmd.download s.ndl ≠ 0) := fun h => h.2 hdl
  rw [if_neg h1, if_pos ⟨hnext, hplug⟩, hdl]

/-- A turn on an item that is processed without error and has its plug flag
set: status query, the flag is cleared, and the same item comes again. -/
theorem work_loop_turn_plug (cmd : Cmd) (fuel : Nat) (s : Loop) (it : sdp_work)
    (hit : s.chain[s.curr]? = some it) (herr : s.err = 0)
    (hdl : cmd.download s.ndl = 0) (hst : cmd.status s.nst = 0) (hplug : it.plug ≠ 0) :
    work_loop cmd (fuel + 1) s
      = work_loop cmd fuel ⟨s.chain.set s.curr { it with plug := 0 }, s.curr, 0,
          if it.filename.headD 0 ≠ 0 then s.ndl + 1 else s.ndl, s.nst + 1,
          s.log ++ turnEvents s.curr it 0 ++ [Ev.status 0]⟩ := by
  rw [work_loop_turn cmd fuel s it hit herr]
  have h1 : ¬ (it.filename.headD 0 ≠ 0 ∧ cmd.download s.ndl ≠ 0) := fun h => h.2 hdl
  have h2 : ¬ (s.chain[s.curr + 1]? = none ∧ it.plug = 0) := fun h => hplug h.2
  have h3 : ¬ cmd.status s.nst ≠ 0 := fun h => h hst
  rw [if_neg h1, if_neg h2, if_neg h3, if_pos hplug, hdl, hst]

/-! ## Claims on transfer_uart -/

/-- C3: for `report < 3` the only call is one `write` of the `size` bytes at
`p`, `*last_trans` is the value that call returned, and neither the expected
size nor the read script has any effect; for `report >= 3` no `write` is made. -/
theorem transfer_uart_direction (fd report : Int) (p size expected : Nat) (wret : Int)
    (script : List ReadCall) (mem : Mem) :
    (report < 3 →
      (transfer_uart fd report p size expected wret script mem).log
        = [Sys.write fd (load mem p size)] ∧
      (load mem p size).length = size ∧
      (transfer_uart fd report p size expected wret script mem).last_trans = wret ∧
      (∀ (expected2 : Nat) (script2 : List ReadCall),
        transfer_uart fd report p size expected2 wret script2 mem
          = transfer_uart fd report p size expected wret script mem)) ∧
    (3 ≤ report →
      ∀ e ∈ (transfer_uart fd report p size expected wret script mem).log,
        e.isWrite = false) := by
  constructor
  · intro h
    simp [transfer_uart, h, load]
  · intro h e he
    have hrep : ¬ report < 3 := by omega
    simp only [transfer_uart, hrep, if_false] at he
    exact (read_loop_reads fd expected script 0 p mem e he).2

/-- Witness of C3: a short write of 2 of 4 bytes with `report = 2`, and a read
with `report = 3`. -/
theorem transfer_uart_direction_witness :
    (transfer_uart 5 2 0 4 9 2 [⟨1, [7]⟩] (fun a => a + 1)).log = [Sys.write 5 [1, 2, 3, 4]] ∧
    (transfer_uart 5 2 0 4 9 2 [⟨1, [7]⟩] (fun a => a + 1)).last_trans = 2 ∧
    (∀ e ∈ (transfer_uart 5 3 0 4 1 2 [⟨1, [7]⟩] (fun a => a + 1)).log, e.isWrite = false) :=
  ⟨((transfer_uart_direction 5 2 0 4 9 2 [⟨1, [7]⟩] (fun a => a + 1)).1 (by decide)).1,
   ((transfer_uart_direction 5 2 0 4 9 2 [⟨1, [7]⟩] (fun a => a + 1)).1 (by decide)).2.2.1,
   (transfer_uart_direction 5 3 0 4 1 2 [⟨1, [7]⟩] (fun a => a + 1)).2 (by decide)⟩

/-- C4, at `report = 1` with a failing `write` (value -1): `transfer_uart`
returns 0 and stores -1 in `*last_trans`, while a failing `read` on the other
path makes it return -1. -/
theorem transfer_uart_write_failure_returns_zero :
    (transfer_uart 5 1 0 4 0 (-1) [] (fun _ => 0)).ret = some 0 ∧
    (transfer_uart 5 1 0 4 0 (-1) [] (fun _ => 0)).last_trans = -1 ∧
    (transfer_uart 5 1 0 4 0 (-1) [] (fun _ => 0)).log = [Sys.write 5 [0, 0, 0, 0]] ∧
    (transfer_uart 5 3 0 0 4 0 [⟨-1, []⟩] (fun _ => 0)).ret = some (-1) := by
  decide

theorem filter_reads (l : List Sys) (h : ∀ e ∈ l, e.isRead = true) : l.filter Sys.isRead = l :=
  List.filter_eq_self.2 h

/-! ## Claims on connect_uart -/

/-- C9, on the three failure paths after a successful `open` (descriptor 3):
when `tcsetattr` fails the descriptor is closed, but after a failing read
(magic timeout) and after a mismatching response `connect_uart` returns -1 with
the descriptor still open and no `close` call made. -/
theorem connect_uart_failure_leaves_fd_open :
    ((connect_uart 1 3 (-1) []).ret = some (-1) ∧
      (connect_uart 1 3 (-1) []).fd_open = false ∧
      Sys.close 3 ∈ (connect_uart 1 3 (-1) []).log) ∧
    ((connect_uart 1 3 0 [⟨-1, []⟩]).ret = some (-1) ∧
      (connect_uart 1 3 0 [⟨-1, []⟩]).fd_open = true ∧
      Sys.close 3 ∉ (connect_uart 1 3 0 [⟨-1, []⟩]).log) ∧
    ((connect_uart 1 3 0 [⟨4, [0x23, 0x45, 0x45, 0x24]⟩]).ret = some (-1) ∧
      (connect_uart 1 3 0 [⟨4, [0x23, 0x45, 0x45, 0x24]⟩]).fd_open = true ∧
      Sys.close 3 ∉ (connect_uart 1 3 0 [⟨4, [0x23, 0x45, 0x45, 0x24]⟩]).log) := by
  decide

/-! ## Claims on the work loop of main -/

/-- C5, as stated, fails on the chain of three items with file names "a", "b"
and "c": the loop downloads the three in order, the status query is made after
the first and after the second item only, and the last thing the loop does is
the download of the third. -/
theorem work_loop_three_items_two_status_queries :
    (work_loop ⟨fun _ => 0, fun _ => 0⟩ 3
        ⟨[⟨[97], false, 0, 0⟩, ⟨[98], false, 0, 0⟩, ⟨[99], false, 0, 0⟩], 0, 0, 0, 0, []⟩).map
        (fun r => r.log)
      = some [Ev.pass 0 0, Ev.download 0 0, Ev.status 0, Ev.pass 1 0, Ev.download 1 0,
          Ev.status 0, Ev.pass 2 0, Ev.download 2 0] ∧
    (work_loop ⟨fun _ => 0, fun _ => 0⟩ 3
        ⟨[⟨[97], false, 0, 0⟩, ⟨[98], false, 0, 0⟩, ⟨[99], false, 0, 0⟩], 0, 0, 0, 0, []⟩).map
        (fun r => (r.log.filter Ev.isStatus).length)
      = some 2 := by
  decide

/-- C5, amended: on a chain of three items without plug flag and with file
names, every download and status query succeeding, the loop downloads the
first, the second and the third item, in that order and once each, makes one
status query after the first and one after the second item, none after the
third, and is then left. -/
theorem work_loop_three_items (cmd : Cmd) (a b c : sdp_work) (ndl nst : Nat) (log : List Ev)
    (fuel : Nat)
    (hpa : a.plug = 0) (hpb : b.plug = 0) (hpc : c.plug = 0)
    (hfa : a.filename.headD 0 ≠ 0) (hfb : b.filename.headD 0 ≠ 0)
    (hfc : c.filename.headD 0 ≠ 0)
    (hdl : ∀ k, cmd.download k = 0) (hst : ∀ k, cmd.status k = 0) :
    work_loop cmd (fuel + 3) ⟨[a, b, c], 0, 0, ndl, nst, log⟩
      = some ⟨[a, b, c], 2, 0, ndl + 3, nst + 2,
          log ++ [Ev.pass 0 0] ++ (if a.mem then [Ev.mem_work 0] else [])
            ++ [Ev.download 0 0, Ev.status 0, Ev.pass 1 0]
            ++ (if b.mem then [Ev.mem_work 1] else [])
            ++ [Ev.download 1 0, Ev.status 0, Ev.pass 2 0]
            ++ (if c.mem then [Ev.mem_work 2] else [])
            ++ [Ev.download 2 0]⟩ := by
  rw [work_loop_turn_advance cmd (fuel + 2) ⟨[a, b, c], 0, 0, ndl, nst, log⟩ a rfl rfl
    (hdl _) (hst _) hpa (by simp)]
  rw [work_loop_turn_advance cmd (fuel + 1) ⟨[a, b, c], 0 + 1, 0, _, _, _⟩ b rfl rfl
    (hdl _) (hst _) hpb (by simp)]
  rw [work_loop_turn_last cmd fuel ⟨[a, b, c], 0 + 1 + 1, 0, _, _, _⟩ c rfl rfl
    (hdl _) hpc (by simp)]
  simp only [turnEvents, if_pos hfa, if_pos hfb, if_pos hfc, hpa, hpb, hpc, List.append_assoc,
    List.cons_append, List.nil_append, Nat.zero_add, Nat.add_assoc]

/-- Witness of the amended C5: three items "a", "b", "c", the second with a
memory write. -/
theorem work_loop_three_items_witness :
    work_loop ⟨fun _ => 0, fun _ => 0⟩ (0 + 3)
        ⟨[⟨[97], false, 0, 0⟩, ⟨[98], true, 0, 0⟩, ⟨[99], false, 0, 0⟩], 0, 0, 0, 1,
          [Ev.status 0]⟩
      = some ⟨[⟨[97], false, 0, 0⟩, ⟨[98], true, 0, 0⟩, ⟨[99], false, 0, 0⟩], 2, 0, 0 + 3, 1 + 2,
          [Ev.status 0] ++ [Ev.pass 0 0]
            ++ (if (⟨[97], false, 0, 0⟩ : sdp_work).mem then [Ev.mem_work 0] else [])
            ++ [Ev.download 0 0, Ev.status 0, Ev.pass 1 0]
            ++ (if (⟨[98], true, 0, 0⟩ : sdp_work).mem then [Ev.mem_work 1] else [])
            ++ [Ev.download 1 0, Ev.status 0, Ev.pass 2 0]
            ++ (if (⟨[99], false, 0, 0⟩ : sdp_work).mem then [Ev.mem_work 2] else [])
            ++ [Ev.download 2 0]⟩ :=
  work_loop_three_items ⟨fun _ => 0, fun _ => 0⟩ ⟨[97], false, 0, 0⟩ ⟨[98], true, 0, 0⟩
    ⟨[99], false, 0, 0⟩ 0 1 [Ev.status 0] 0 (by decide) (by decide) (by decide) (by decide)
    (by decide) (by decide) (fun _ => rfl) (fun _ => rfl)

/-- C6: on a chain of the single item `a` with its plug flag set, every
download and status query succeeding, the loop processes `a`, makes a status
query, clears the flag and processes `a` again with the flag 0, and is then
left: two turns on `a` and no third, one turn being not enough. -/
theorem work_loop_plug_once (cmd : Cmd) (a : sdp_work) (ndl nst : Nat) (log : List Ev)
    (fuel : Nat) (hplug : a.plug ≠ 0)
    (hdl : ∀ k, cmd.download k = 0) (hst : ∀ k, cmd.status k = 0) :
    work_loop cmd (fuel + 2) ⟨[a], 0, 0, ndl, nst, log⟩
      = some ⟨[{ a with plug := 0 }], 0, 0,
          (if a.filename.headD 0 ≠ 0 then ndl + 2 else ndl), nst + 1,
          log ++ [Ev.pass 0 a.plug] ++ (if a.mem then [Ev.mem_work 0] else [])
            ++ (if a.filename.headD 0 ≠ 0 then [Ev.download 0 0] else [])
            ++ [Ev.status 0, Ev.pass 0 0] ++ (if a.mem then [Ev.mem_work 0] else [])
            ++ (if a.filename.headD 0 ≠ 0 then [Ev.download 0 0] else [])⟩ ∧
    work_loop cmd 1 ⟨[a], 0, 0, ndl, nst, log⟩ = none := by
  constructor
  · rw [work_loop_turn_plug cmd (fuel + 1) ⟨[a], 0, 0, ndl, nst, log⟩ a rfl rfl
      (hdl _) (hst _) hplug]
    show work_loop cmd (fuel + 1) ⟨[{ a with plug := 0 }], 0, 0, _, _, _⟩ = _
    rw [work_loop_turn_last cmd fuel ⟨[{ a with plug := 0 }], 0, 0, _, _, _⟩
      { a with plug := 0 } rfl rfl (hdl _) rfl (by simp)]
    simp only [turnEvents]
    by_cases hf : a.filename.headD 0 ≠ 0
    · simp only [if_pos hf, List.append_assoc, List.cons_append, List.nil_append,
        Nat.add_assoc]
    · simp only [if_neg hf, List.append_assoc, List.cons_append, List.nil_append,
        List.append_nil]
  · rw [work_loop_turn_plug cmd 0 ⟨[a], 0, 0, ndl, nst, log⟩ a rfl rfl (hdl _) (hst _) hplug]
    rfl

/-- Witness of C6: one item "a" with `plug = 1`. -/
theorem work_loop_plug_once_witness :
    (1 : Int) ≠ 0 ∧
    work_loop ⟨fun _ => 0, fun _ => 0⟩ 2 ⟨[⟨[97], false, 1, 0⟩], 0, 0, 0, 0, []⟩
      = some ⟨[⟨[97], false, 0, 0⟩], 0, 0, 2, 1,
          [Ev.pass 0 1, Ev.download 0 0, Ev.status 0, Ev.pass 0 0, Ev.download 0 0]⟩ :=
  ⟨by decide,
    (work_loop_plug_once ⟨fun _ => 0, fun _ => 0⟩ ⟨[97], false, 1, 0⟩ 0 0 [] 0 (by decide)
      (fun _ => rfl) (fun _ => rfl)).1⟩

/-- C7: when the download of the item being processed returns an error, the
loop makes one more status query and is left: position and chain, the plug
flags with it, are as they were, and nothing else is done. -/
theorem work_loop_download_error (cmd : Cmd) (fuel : Nat) (s : Loop) (it : sdp_work)
    (hit : s.chain[s.curr]? = some it) (hname : it.filename.headD 0 ≠ 0)
    (herr : cmd.download s.ndl ≠ 0) :
    work_loop cmd (fuel + 1) s
      = some ⟨s.chain, s.curr, cmd.status s.nst, s.ndl + 1, s.nst + 1,
          s.log ++ [Ev.pass s.curr it.plug] ++ (if it.mem then [Ev.mem_work s.curr] else [])
            ++ [Ev.download s.curr (cmd.download s.ndl), Ev.status (cmd.status s.nst)]⟩ := by
  obtain ⟨chain, curr, err, ndl, nst, log⟩ := s
  simp only at hit herr
  rw [work_loop]
  simp only [hit]
  generalize hx : it.filename.headD 0 = x at hname
  by_cases hm : it.mem = true <;> simp [hm, hname, herr]

/-- Witness of C7: the download of the first of two items, whose plug flag is
set, fails with -5. -/
theorem work_loop_download_error_witness :
    work_loop ⟨fun _ => -5, fun _ => 0⟩ (0 + 1)
        ⟨[⟨[97], true, 1, 0⟩, ⟨[98], true, 0, 0⟩], 0, 0, 0, 1, []⟩
      = some ⟨[⟨[97], true, 1, 0⟩, ⟨[98], true, 0, 0⟩], 0, 0, 1, 2,
          [Ev.pass 0 1, Ev.mem_work 0, Ev.download 0 (-5), Ev.status 0]⟩ :=
  work_loop_download_error ⟨fun _ => -5, fun _ => 0⟩ 0
    ⟨[⟨[97], true, 1, 0⟩, ⟨[98], true, 0, 0⟩], 0, 0, 0, 1, []⟩ ⟨[97], true, 1, 0⟩
    (by decide) (by decide) (by decide)

/-- C10: the loop, entered with `err = 0` as `main` enters it, is left within
`2 * length + 1` turns; whatever it has done when it is left, no memory write
and no download comes after a download or a status query that returned an
error; and a status query that fails after an item processed without error is
the last thing the loop does, position and chain, the plug flags with it, being
as they were. -/
theorem work_loop_stops_on_first_error (cmd : Cmd) (s : Loop) (hentry : s.err = 0) :
    (∃ res, work_loop cmd (2 * s.chain.length + 1) s = some res) ∧
    (∀ (fuel : Nat) (res : Loop), work_loop cmd fuel s = some res →
      ∃ evs, res.log = s.log ++ evs ∧
        ∀ pre e post, evs = pre ++ e :: post → e.failed = true →
          ∀ x ∈ post, x.isWork = false) ∧
    (∀ (fuel : Nat) (it : sdp_work), s.chain[s.curr]? = some it →
      (it.filename.headD 0 ≠ 0 → cmd.download s.ndl = 0) →
      ¬ (s.chain[s.curr + 1]? = none ∧ it.plug = 0) →
      cmd.status s.nst ≠ 0 →
      work_loop cmd (fuel + 1) s
        = some ⟨s.chain, s.curr, cmd.status s.nst,
            (if it.filename.headD 0 ≠ 0 then s.ndl + 1 else s.ndl), s.nst + 1,
            s.log ++ [Ev.pass s.curr it.plug] ++ (if it.mem then [Ev.mem_work s.curr] else [])
              ++ (if it.filename.headD 0 ≠ 0 then [Ev.download s.curr 0] else [])
              ++ [Ev.status (cmd.status s.nst)]⟩) := by
  refine ⟨?_, ?_, ?_⟩
  · apply work_loop_terminates cmd _ s hentry
    have h1 := turns_drop_le s.chain s.curr
    have h2 := turns_le s.chain
    omega
  · intro fuel res h
    obtain ⟨evs, h1, h2⟩ := work_loop_log cmd fuel s res hentry h
    exact ⟨evs, h1, stopsOnError_spec evs h2⟩
  · intro fuel it hit hdl hterm hst
    rw [work_loop_turn cmd fuel s it hit hentry]
    have h1 : ¬ (it.filename.headD 0 ≠ 0 ∧ cmd.download s.ndl ≠ 0) := fun h => h.2 (hdl h.1)
    rw [if_neg h1, if_neg hterm, if_pos hst]
    simp only [turnEvents]
    by_cases hf : it.filename.headD 0 ≠ 0
    · simp only [hdl hf, List.append_assoc]
    · simp only [hf, if_false, List.append_assoc]

/-- Witness of C10: two items, the status query after the first one fails
with -7. -/
theorem work_loop_stops_on_first_error_witness :
    (0 : Int) = 0 ∧
    work_loop ⟨fun _ => 0, fun _ => -7⟩ 5
        ⟨[⟨[97], false, 1, 0⟩, ⟨[98], true, 0, 0⟩], 0, 0, 0, 0, []⟩
      = some ⟨[⟨[97], false, 1, 0⟩, ⟨[98], true, 0, 0⟩], 0, -7, 1, 1,
          [Ev.pass 0 1, Ev.download 0 0, Ev.status (-7)]⟩ ∧
    (∃ res, work_loop ⟨fun _ => 0, fun _ => -7⟩ (2 * 2 + 1)
        ⟨[⟨[97], false, 1, 0⟩, ⟨[98], true, 0, 0⟩], 0, 0, 0, 0, []⟩ = some res) :=
  ⟨rfl, by decide,
    (work_loop_stops_on_first_error ⟨fun _ => 0, fun _ => -7⟩
      ⟨[⟨[97], false, 1, 0⟩, ⟨[98], true, 0, 0⟩], 0, 0, 0, 0, []⟩ rfl).1⟩

/-! ## Claims on main -/

/-- C8, with the arguments `UART CONFIG` given and the configuration found and
parsed: when `open` fails with -1, `connect_uart` returns -1 and `main` returns
0, and so it does when the handshake times out or the response is not the
magic; the failures before it make `main` return -1. -/
theorem main_connect_failure_exit_zero :
    (connect_uart 1 (-1) 0 []).ret = some (-1) ∧
    main 1 ⟨[], ["/dev/ttyUSB0", "mx6.conf"], [], [], true, some [⟨[97], false, 0, 0⟩],
        -1, 0, [], ⟨fun _ => 0, fun _ => 0⟩⟩ = some 0 ∧
    main 1 ⟨[], ["/dev/ttyUSB0", "mx6.conf"], [], [], true, some [⟨[97], false, 0, 0⟩],
        3, -1, [], ⟨fun _ => 0, fun _ => 0⟩⟩ = some 0 ∧
    main 1 ⟨[], ["/dev/ttyUSB0", "mx6.conf"], [], [], true, some [⟨[97], false, 0, 0⟩],
        3, 0, [⟨-1, []⟩], ⟨fun _ => 0, fun _ => 0⟩⟩ = some 0 ∧
    main 1 ⟨[], ["/dev/ttyUSB0", "mx6.conf"], [], [], true, some [⟨[97], false, 0, 0⟩],
        3, 0, [⟨4, [0, 0, 0, 0]⟩], ⟨fun _ => 0, fun _ => 0⟩⟩ = some 0 ∧
    main 1 ⟨['h'], ["/dev/ttyUSB0", "mx6.conf"], [], [], true, some [⟨[97], false, 0, 0⟩],
        3, 0, [], ⟨fun _ => 0, fun _ => 0⟩⟩ = some (-1) ∧
    main 1 ⟨[], ["/dev/ttyUSB0"], [], [], true, some [⟨[97], false, 0, 0⟩],
        3, 0, [], ⟨fun _ => 0, fun _ => 0⟩⟩ = some (-1) ∧
    main 1 ⟨[], ["/dev/ttyUSB0", "mx6.conf"], [], [], false, some [⟨[97], false, 0, 0⟩],
        3, 0, [], ⟨fun _ => 0, fun _ => 0⟩⟩ = some (-1) ∧
    main 1 ⟨[], ["/dev/ttyUSB0", "mx6.conf"], [], [], true, none,
        3, 0, [], ⟨fun _ => 0, fun _ => 0⟩⟩ = some (-1) := by
  decide

end ImxUart
